import Mathlib

/-
Verification of the Reflector + Cache state-synchronization core of
bk-bcs (bmsf-mesh/bmsf-mesos-adapter/pkg/cache/reflector.go).

The Go `map[string]interface{}` inside `Cache` is modelled as an
association list `List (String × α)`; the observable semantics of a Go
map (lookup by key, upsert, delete, key iteration) are captured by
`mapLookup`, `mapInsert`, `mapErase` and `List.map Prod.fst`.  A Go map
has no iteration order, so modelling up to lookup/key-set semantics is
faithful.  The caller-supplied keying function `ObjectKeyFunc`
(`func(obj interface{}) (string, error)`) is modelled as
`α → Option String`, `none` standing for a key-derivation failure.
-/

namespace BcsReflector

/-- Lookup in the modelled Go map: first binding with the given key. -/
def mapLookup {α : Type} : List (String × α) → String → Option α
  | [], _ => none
  | (k2, v) :: rest, k => if k2 = k then some v else mapLookup rest k

/-- Upsert `m[key] = v` of the Go map: drop every binding of `key`, put the
new binding in front.  Observably (via `mapLookup`) identical to Go map
assignment. -/
def mapInsert {α : Type} (m : List (String × α)) (k : String) (v : α) :
    List (String × α) :=
  (k, v) :: m.filter (fun p => p.1 != k)

/-- `delete(m, key)` of the Go map: drop every binding of `key`. -/
def mapErase {α : Type} (m : List (String × α)) (k : String) :
    List (String × α) :=
  m.filter (fun p => p.1 != k)

/-- Error values returned by the Cache, from reflector.go:
`KeyError{obj, err}` (key derivation failed) and `DataNoExist{obj}`
(delete on an absent key). -/
inductive StoreErr (α : Type) where
  | KeyError (obj : α)
  | DataNoExist (obj : α)
deriving DecidableEq

/-- The `Cache` struct: `dataMap map[string]interface{}` plus
`keyFunc ObjectKeyFunc`.  The `sync.RWMutex` serializes each operation;
each Lean function below is one such serialized operation. -/
structure Cache (α : Type) where
  dataMap : List (String × α)
  keyFunc : α → Option String

/-- `NewCache` / `CreateCache`: empty map with the given key function. -/
def CreateCache {α : Type} (kfunc : α → Option String) : Cache α :=
  { dataMap := [], keyFunc := kfunc }

/-- `Cache.Add`: derive key (`KeyError` on failure), then upsert.
Mutation of the receiver is modelled by returning the new cache next to
the Go return value (the error). -/
def Cache.Add {α : Type} (c : Cache α) (obj : α) :
    Cache α × Option (StoreErr α) :=
  match c.keyFunc obj with
  | none => (c, some (StoreErr.KeyError obj))
  | some key => ({ c with dataMap := mapInsert c.dataMap key obj }, none)

/-- `Cache.Update`: same body as `Add` in the source — an unconditional
upsert after key derivation. -/
def Cache.Update {α : Type} (c : Cache α) (obj : α) :
    Cache α × Option (StoreErr α) :=
  match c.keyFunc obj with
  | none => (c, some (StoreErr.KeyError obj))
  | some key => ({ c with dataMap := mapInsert c.dataMap key obj }, none)

/-- `Cache.Delete`: derive key; if the key is found delete it, otherwise
return `DataNoExist` and leave the map alone. -/
def Cache.Delete {α : Type} (c : Cache α) (obj : α) :
    Cache α × Option (StoreErr α) :=
  match c.keyFunc obj with
  | none => (c, some (StoreErr.KeyError obj))
  | some key =>
    match mapLookup c.dataMap key with
    | some _ => ({ c with dataMap := mapErase c.dataMap key }, none)
    | none => (c, some (StoreErr.DataNoExist obj))

/-- `Cache.Get`: derive key, then read the map.  Go's
`(item, exists, err)` is `Except err (Option α)`: `.ok (some v)` is
`(v, true, nil)`, `.ok none` is `(nil, false, nil)`. -/
def Cache.Get {α : Type} (c : Cache α) (obj : α) :
    Except (StoreErr α) (Option α) :=
  match c.keyFunc obj with
  | none => Except.error (StoreErr.KeyError obj)
  | some key => Except.ok (mapLookup c.dataMap key)

/-- `Cache.GetByKey`: read the map directly; never fails. -/
def Cache.GetByKey {α : Type} (c : Cache α) (key : String) : Option α :=
  mapLookup c.dataMap key

/-- `Cache.Num`: number of entries. -/
def Cache.Num {α : Type} (c : Cache α) : Nat :=
  c.dataMap.length

/-- `Cache.Clear`: drop every entry. -/
def Cache.Clear {α : Type} (c : Cache α) : Cache α :=
  { c with dataMap := [] }

/-- The shared insertion loop of `Cache.Replace` and `Cache.Reset`
(`for _, item := range list { key, err := keyFunc(item); if err ≠ nil
return KeyError; dataMap[key] = item }`): on the first key-derivation
failure it stops, returning the map as mutated so far. -/
def Cache.insertAll {α : Type} : Cache α → List α → Cache α × Option (StoreErr α)
  | c, [] => (c, none)
  | c, item :: rest =>
    match c.keyFunc item with
    | none => (c, some (StoreErr.KeyError item))
    | some key => Cache.insertAll { c with dataMap := mapInsert c.dataMap key item } rest

/-- `Cache.Replace`: upsert every item of `list` into the existing map. -/
def Cache.Replace {α : Type} (c : Cache α) (list : List α) :
    Cache α × Option (StoreErr α) :=
  Cache.insertAll c list

/-- `Cache.Reset`: `dataMap = make(map[string]interface{})`, then the same
insertion loop as `Replace`. -/
def Cache.Reset {α : Type} (c : Cache α) (list : List α) :
    Cache α × Option (StoreErr α) :=
  Cache.insertAll { c with dataMap := [] } list

/-- `Cache.List`: snapshot of all values.  (Defined after the other
`Cache` operations because within a `Cache.*` declaration the bare name
`List` would resolve to this definition.) -/
def Cache.List {α : Type} (c : Cache α) :=
  c.dataMap.map Prod.snd

/-- `Cache.ListKeys`: snapshot of all keys. -/
def Cache.ListKeys {α : Type} (c : Cache α) :=
  c.dataMap.map Prod.fst

/- ------------------------------------------------------------------ -/
/- The Reflector: objects, watch events, callbacks.                    -/
/- ------------------------------------------------------------------ -/

/-- The minimal object capability the Reflector uses: namespace, name
(`GetNamespace`/`GetName`, only logged), and the optional annotation map
(`GetAnnotations`, read by `processDeletion`).  The annotation
`map[string]string` is modelled like `dataMap`, as an association list. -/
structure Obj where
  ns : String
  name : String
  annotations : Option (List (String × String))
deriving DecidableEq

/-- `watch.EventType`: Added, Updated, Deleted, Synced (`EventSync`) and
Err (`EventErr`). -/
inductive EventType where
  | Added
  | Updated
  | Deleted
  | Synced
  | Err
deriving DecidableEq

/-- `watch.Event`: a typed change event carrying a payload object. -/
structure Event where
  type : EventType
  data : Obj
deriving DecidableEq

/-- One observer callback as fired through `EventInterface`.  Side effects
of the handler are modelled by recording the calls in order. -/
inductive CallbackEvent where
  | OnAdd (obj : Obj)
  | OnUpdate (old cur : Obj)
  | OnDelete (obj : Obj)
deriving DecidableEq

/-- The loop body of `listAllData` for one listed object: Get from the
store; on store error skip (`continue`); if found, Update + OnUpdate(old,
new); else Add + OnAdd(new).  `hasHandler = false` models
`r.handler == nil`, under which no callback is fired.  Returns the store
after the mutation and the callbacks fired, in order. -/
def processListObj (hasHandler : Bool) (c : Cache Obj) (obj : Obj) :
    Cache Obj × List CallbackEvent :=
  match Cache.Get c obj with
  | Except.error _ => (c, [])
  | Except.ok (some oldObj) =>
    ((Cache.Update c obj).1,
     if hasHandler then [CallbackEvent.OnUpdate oldObj obj] else [])
  | Except.ok none =>
    ((Cache.Add c obj).1,
     if hasHandler then [CallbackEvent.OnAdd obj] else [])

/-- The `for _, obj := range objs` loop of `listAllData`. -/
def processList (hasHandler : Bool) : Cache Obj → List Obj → Cache Obj × List CallbackEvent
  | c, [] => (c, [])
  | c, obj :: rest =>
    let r1 := processListObj hasHandler c obj
    let r2 := processList hasHandler r1.1 rest
    (r2.1, r1.2 ++ r2.2)

/-- `Reflector.listAllData`: call the backend List; on error
(`listResult = none`) log and return with nothing changed and nothing
fired; on success run the classification loop over the returned objects. -/
def listAllData (hasHandler : Bool) (c : Cache Obj)
    (listResult : Option (List Obj)) : Cache Obj × List CallbackEvent :=
  match listResult with
  | none => (c, [])
  | some objs => processList hasHandler c objs

/-- `Reflector.processAddUpdate`: Get the event payload from the store; on
store error return; if found, Update + OnUpdate(old, payload); else Add +
OnAdd(payload). -/
def processAddUpdate (hasHandler : Bool) (c : Cache Obj) (event : Event) :
    Cache Obj × List CallbackEvent :=
  match Cache.Get c event.data with
  | Except.error _ => (c, [])
  | Except.ok (some oldObj) =>
    ((Cache.Update c event.data).1,
     if hasHandler then [CallbackEvent.OnUpdate oldObj event.data] else [])
  | Except.ok none =>
    ((Cache.Add c event.data).1,
     if hasHandler then [CallbackEvent.OnAdd event.data] else [])

/-- The tricky-delete condition of `processDeletion`:
`event.Data.GetAnnotations() != nil &&
 event.Data.GetAnnotations()["bk-bcs-inner-storage"] == "bkbcs-zookeeper"`.
Indexing a Go `map[string]string` at an absent key yields `""`, hence
`getD ""`. -/
def isZkInnerStorage (o : Obj) : Bool :=
  match o.annotations with
  | none => false
  | some am => (mapLookup am "bk-bcs-inner-storage").getD "" == "bkbcs-zookeeper"

/-- `Reflector.processDeletion`: Get the payload's entry from the store;
on store error return; if it exists, Delete it from the store and fire
OnDelete — with the previously cached object when the payload carries the
zookeeper inner-storage annotation (zookeeper dispatches no object on
deletion), otherwise with the event payload; if it does not exist, only
log (`lost local cache`) and return. -/
def processDeletion (hasHandler : Bool) (c : Cache Obj) (event : Event) :
    Cache Obj × List CallbackEvent :=
  match Cache.Get c event.data with
  | Except.error _ => (c, [])
  | Except.ok (some oldObj) =>
    let c1 := (Cache.Delete c event.data).1
    if isZkInnerStorage event.data then
      (c1, if hasHandler then [CallbackEvent.OnDelete oldObj] else [])
    else
      (c1, if hasHandler then [CallbackEvent.OnDelete event.data] else [])
  | Except.ok none => (c, [])

/-- The event dispatch of `Reflector.handleWatch`'s inner `switch`:
Sync/Added/Updated go to `processAddUpdate`, Deleted to `processDeletion`,
Err is only logged and the loop keeps running. -/
def handleEvent (hasHandler : Bool) (c : Cache Obj) (event : Event) :
    Cache Obj × List CallbackEvent :=
  match event.type with
  | EventType.Synced => processAddUpdate hasHandler c event
  | EventType.Added => processAddUpdate hasHandler c event
  | EventType.Updated => processAddUpdate hasHandler c event
  | EventType.Deleted => processDeletion hasHandler c event
  | EventType.Err => (c, [])


/- ------------------------------------------------------------------ -/
/- Concrete instances used to exercise the theorems.                   -/
/- ------------------------------------------------------------------ -/

/-- A concrete key function: key by object name (always succeeds). -/
def nameKeyFunc : Obj → Option String := fun o => some o.name

/-- A concrete key function that fails exactly on objects named "bad". -/
def fragileKeyFunc : Obj → Option String :=
  fun o => if o.name = "bad" then none else some o.name

def objX : Obj := { ns := "ns", name := "x", annotations := none }

def objX2 : Obj := { ns := "ns2", name := "x", annotations := none }

def objXzk : Obj :=
  { ns := "ns", name := "x",
    annotations := some [("bk-bcs-inner-storage", "bkbcs-zookeeper")] }

def objY : Obj := { ns := "ns", name := "y", annotations := none }

def objBad : Obj := { ns := "ns", name := "bad", annotations := none }

def emptyCache : Cache Obj := CreateCache nameKeyFunc

def cacheX : Cache Obj := { dataMap := [("x", objX)], keyFunc := nameKeyFunc }

def fragileCacheX : Cache Obj :=
  { dataMap := [("x", objX)], keyFunc := fragileKeyFunc }

def cacheXY : Cache Obj :=
  { dataMap := [("x", objX), ("y", objY)], keyFunc := nameKeyFunc }

/- ------------------------------------------------------------------ -/
/- Basic lemmas about the modelled Go map.                             -/
/- ------------------------------------------------------------------ -/

theorem mapLookup_filter_ne {α : Type} (m : List (String × α)) (k k2 : String)
    (h : k ≠ k2) :
    mapLookup (m.filter fun p => p.1 != k) k2 = mapLookup m k2 := by
  induction m with
  | nil => rfl
  | cons p rest ih =>
    by_cases hp : p.1 = k
    · have : (p.1 != k) = false := by simp [hp]
      simp [List.filter_cons, this, mapLookup, hp, h, ih]
    · have : (p.1 != k) = true := by simp [hp]
      by_cases hp2 : p.1 = k2
      · simp [List.filter_cons, this, mapLookup, hp2, Ne.symm h]
      · simp [List.filter_cons, this, mapLookup, hp2, ih]

theorem mapLookup_filter_self {α : Type} (m : List (String × α)) (k : String) :
    mapLookup (m.filter fun p => p.1 != k) k = none := by
  induction m with
  | nil => rfl
  | cons p rest ih =>
    by_cases hp : p.1 = k
    · have : (p.1 != k) = false := by simp [hp]
      simp [List.filter_cons, this, ih]
    · have : (p.1 != k) = true := by simp [hp]
      simp [List.filter_cons, this, mapLookup, hp, ih]

theorem mapLookup_mapInsert {α : Type} (m : List (String × α)) (k k2 : String)
    (v : α) :
    mapLookup (mapInsert m k v) k2 = if k = k2 then some v else mapLookup m k2 := by
  by_cases h : k = k2
  · simp [mapInsert, mapLookup, h]
  · simp [mapInsert, mapLookup, h, mapLookup_filter_ne m k k2 h]

theorem mapLookup_mapErase {α : Type} (m : List (String × α)) (k k2 : String) :
    mapLookup (mapErase m k) k2 = if k = k2 then none else mapLookup m k2 := by
  by_cases h : k = k2
  · simp [mapErase, h, mapLookup_filter_self]
  · simp [mapErase, h, mapLookup_filter_ne m k k2 h]

theorem mapLookup_isSome_iff_mem_keys {α : Type} (m : List (String × α))
    (k : String) :
    (mapLookup m k).isSome ↔ k ∈ m.map Prod.fst := by
  induction m with
  | nil => simp [mapLookup]
  | cons p rest ih =>
    by_cases h : p.1 = k
    · simp [mapLookup, h]
    · have : k ≠ p.1 := fun he => h he.symm
      simp [mapLookup, h, ih, this]

theorem nodupKeys_mapInsert {α : Type} (m : List (String × α)) (k : String)
    (v : α) (h : (m.map Prod.fst).Nodup) :
    ((mapInsert m k v).map Prod.fst).Nodup := by
  unfold mapInsert
  simp only [List.map_cons, List.nodup_cons]
  constructor
  · intro hmem
    rcases List.mem_map.mp hmem with ⟨p, hp, hpk⟩
    have h2 := (List.mem_filter.mp hp).2
    rw [hpk] at h2
    simp at h2
  · exact h.sublist ((List.filter_sublist m).map Prod.fst)

/- ------------------------------------------------------------------ -/
/- Lemmas about the shared insertion loop of Replace / Reset.          -/
/- ------------------------------------------------------------------ -/

theorem insertAll_cons_none {α : Type} (c : Cache α) (x : α) (rest : List α)
    (h : c.keyFunc x = none) :
    Cache.insertAll c (x :: rest) = (c, some (StoreErr.KeyError x)) := by
  unfold Cache.insertAll
  rw [h]

theorem insertAll_cons_some {α : Type} (c : Cache α) (x : α) (rest : List α)
    (kx : String) (h : c.keyFunc x = some kx) :
    Cache.insertAll c (x :: rest) =
      Cache.insertAll { c with dataMap := mapInsert c.dataMap kx x } rest := by
  conv_lhs => unfold Cache.insertAll
  rw [h]

theorem insertAll_keyFunc {α : Type} (l : List α) (c : Cache α) :
    ((Cache.insertAll c l).1).keyFunc = c.keyFunc := by
  induction l generalizing c with
  | nil => rfl
  | cons x rest ih =>
    unfold Cache.insertAll
    cases h : c.keyFunc x with
    | none => rfl
    | some k => exact ih _

theorem insertAll_err_none {α : Type} (l : List α) (c : Cache α)
    (hall : ∀ x ∈ l, (c.keyFunc x).isSome) :
    (Cache.insertAll c l).2 = none := by
  induction l generalizing c with
  | nil => rfl
  | cons x rest ih =>
    have hx := hall x (by simp)
    cases h : c.keyFunc x with
    | none => rw [h] at hx; simp at hx
    | some k =>
      unfold Cache.insertAll
      rw [h]
      exact ih _ (fun y hy => hall y (List.mem_cons_of_mem _ hy))

theorem insertAll_lookup_isSome {α : Type} (l : List α) (c : Cache α) (k : String)
    (hall : ∀ x ∈ l, (c.keyFunc x).isSome) :
    (mapLookup ((Cache.insertAll c l).1).dataMap k).isSome ↔
      (∃ x ∈ l, c.keyFunc x = some k) ∨ (mapLookup c.dataMap k).isSome := by
  induction l generalizing c with
  | nil => simp [Cache.insertAll]
  | cons x rest ih =>
    have hx := hall x (by simp)
    cases h : c.keyFunc x with
    | none => rw [h] at hx; simp at hx
    | some kx =>
      rw [insertAll_cons_some c x rest kx h]
      rw [ih { c with dataMap := mapInsert c.dataMap kx x }
          (fun y hy => hall y (List.mem_cons_of_mem _ hy))]
      by_cases hk : kx = k
      · subst hk
        simp [mapLookup_mapInsert, h]
      · simp only [mapLookup_mapInsert, if_neg hk, List.mem_cons]
        constructor
        · rintro (⟨y, hy, hky⟩ | hs)
          · exact Or.inl ⟨y, Or.inr hy, hky⟩
          · exact Or.inr hs
        · rintro (⟨y, (rfl | hy), hky⟩ | hs)
          · rw [h] at hky
            exact absurd (Option.some.inj hky) hk
          · exact Or.inl ⟨y, hy, hky⟩
          · exact Or.inr hs

theorem insertAll_lookup_frame {α : Type} (l : List α) (c : Cache α) (k : String)
    (hfr : ∀ x ∈ l, c.keyFunc x ≠ some k) :
    mapLookup ((Cache.insertAll c l).1).dataMap k = mapLookup c.dataMap k := by
  induction l generalizing c with
  | nil => rfl
  | cons x rest ih =>
    cases h : c.keyFunc x with
    | none => rw [insertAll_cons_none c x rest h]
    | some kx =>
      rw [insertAll_cons_some c x rest kx h]
      rw [ih { c with dataMap := mapInsert c.dataMap kx x }
          (fun y hy => hfr y (List.mem_cons_of_mem _ hy))]
      rw [mapLookup_mapInsert]
      have hne : kx ≠ k := fun he => hfr x (by simp) (he ▸ h)
      simp [hne]

theorem insertAll_lookup_last {α : Type} (l : List α) (c : Cache α) (k : String)
    (hall : ∀ x ∈ l, (c.keyFunc x).isSome) :
    mapLookup ((Cache.insertAll c l).1).dataMap k =
      match l.reverse.find? (fun x => c.keyFunc x == some k) with
      | some x => some x
      | none => mapLookup c.dataMap k := by
  induction l generalizing c with
  | nil => simp [Cache.insertAll]
  | cons x rest ih =>
    have hx := hall x (by simp)
    cases h : c.keyFunc x with
    | none => rw [h] at hx; simp at hx
    | some kx =>
      rw [insertAll_cons_some c x rest kx h]
      rw [ih { c with dataMap := mapInsert c.dataMap kx x }
          (fun y hy => hall y (List.mem_cons_of_mem _ hy))]
      have hproj : ({ c with dataMap := mapInsert c.dataMap kx x } : Cache α).keyFunc
          = c.keyFunc := rfl
      simp only [hproj]
      rw [List.reverse_cons, List.find?_append]
      cases hf : rest.reverse.find? (fun y => c.keyFunc y == some k) with
      | some y => simp
      | none =>
        rw [mapLookup_mapInsert]
        by_cases hkk : kx = k
        · subst hkk
          simp [List.find?_cons, h]
        · simp [List.find?_cons, h, hkk]

theorem insertAll_append_fail {α : Type} (pre : List α) (c : Cache α) (bad : α)
    (post : List α) (hpre : ∀ x ∈ pre, (c.keyFunc x).isSome)
    (hbad : c.keyFunc bad = none) :
    Cache.insertAll c (pre ++ bad :: post) =
      ((Cache.insertAll c pre).1, some (StoreErr.KeyError bad)) := by
  induction pre generalizing c with
  | nil =>
    simp only [List.nil_append]
    unfold Cache.insertAll
    rw [hbad]
  | cons x rest ih =>
    have hx := hpre x (by simp)
    cases h : c.keyFunc x with
    | none => rw [h] at hx; simp at hx
    | some kx =>
      simp only [List.cons_append]
      unfold Cache.insertAll
      rw [h]
      exact ih _ (fun y hy => hpre y (List.mem_cons_of_mem _ hy)) hbad

theorem insertAll_nodupKeys {α : Type} (l : List α) (c : Cache α)
    (h : (c.dataMap.map Prod.fst).Nodup) :
    (((Cache.insertAll c l).1).dataMap.map Prod.fst).Nodup := by
  induction l generalizing c with
  | nil => exact h
  | cons x rest ih =>
    unfold Cache.insertAll
    cases hx : c.keyFunc x with
    | none => exact h
    | some kx => exact ih _ (nodupKeys_mapInsert _ _ _ h)

/- ------------------------------------------------------------------ -/
/- Reduction lemmas for the Cache operations.                          -/
/- ------------------------------------------------------------------ -/

theorem cacheGet_eq_ok {α : Type} (c : Cache α) (o : α) (k : String)
    (hk : c.keyFunc o = some k) :
    Cache.Get c o = Except.ok (mapLookup c.dataMap k) := by
  unfold Cache.Get
  rw [hk]

theorem cacheGet_eq_error {α : Type} (c : Cache α) (o : α)
    (hk : c.keyFunc o = none) :
    Cache.Get c o = Except.error (StoreErr.KeyError o) := by
  unfold Cache.Get
  rw [hk]

theorem cacheUpdate_eq {α : Type} (c : Cache α) (o : α) (k : String)
    (hk : c.keyFunc o = some k) :
    Cache.Update c o = ({ c with dataMap := mapInsert c.dataMap k o }, none) := by
  unfold Cache.Update
  rw [hk]

theorem cacheAdd_eq {α : Type} (c : Cache α) (o : α) (k : String)
    (hk : c.keyFunc o = some k) :
    Cache.Add c o = ({ c with dataMap := mapInsert c.dataMap k o }, none) := by
  unfold Cache.Add
  rw [hk]

theorem cacheDelete_eq_found {α : Type} (c : Cache α) (o : α) (k : String)
    (v : α) (hk : c.keyFunc o = some k) (hl : mapLookup c.dataMap k = some v) :
    Cache.Delete c o = ({ c with dataMap := mapErase c.dataMap k }, none) := by
  simp [Cache.Delete, hk, hl]

theorem cacheDelete_eq_missing {α : Type} (c : Cache α) (o : α) (k : String)
    (hk : c.keyFunc o = some k) (hl : mapLookup c.dataMap k = none) :
    Cache.Delete c o = (c, some (StoreErr.DataNoExist o)) := by
  simp [Cache.Delete, hk, hl]

/- ------------------------------------------------------------------ -/
/- Reduction lemmas for the Reflector loop bodies.                     -/
/- ------------------------------------------------------------------ -/

theorem processListObj_error (hh : Bool) (c : Cache Obj) (obj : Obj)
    (hk : c.keyFunc obj = none) :
    processListObj hh c obj = (c, []) := by
  unfold processListObj
  rw [cacheGet_eq_error c obj hk]

theorem processListObj_found (hh : Bool) (c : Cache Obj) (obj oldObj : Obj)
    (k : String) (hk : c.keyFunc obj = some k)
    (hl : mapLookup c.dataMap k = some oldObj) :
    processListObj hh c obj =
      ({ c with dataMap := mapInsert c.dataMap k obj },
       if hh then [CallbackEvent.OnUpdate oldObj obj] else []) := by
  unfold processListObj
  rw [cacheGet_eq_ok c obj k hk, hl, cacheUpdate_eq c obj k hk]

theorem processListObj_notfound (hh : Bool) (c : Cache Obj) (obj : Obj)
    (k : String) (hk : c.keyFunc obj = some k)
    (hl : mapLookup c.dataMap k = none) :
    processListObj hh c obj =
      ({ c with dataMap := mapInsert c.dataMap k obj },
       if hh then [CallbackEvent.OnAdd obj] else []) := by
  unfold processListObj
  rw [cacheGet_eq_ok c obj k hk, hl, cacheAdd_eq c obj k hk]

theorem processListObj_keyFunc (hh : Bool) (c : Cache Obj) (obj : Obj) :
    ((processListObj hh c obj).1).keyFunc = c.keyFunc := by
  cases hk : c.keyFunc obj with
  | none => rw [processListObj_error hh c obj hk]
  | some k =>
    cases hl : mapLookup c.dataMap k with
    | none => rw [processListObj_notfound hh c obj k hk hl]
    | some old => rw [processListObj_found hh c obj old k hk hl]

theorem processList_cons (hh : Bool) (c : Cache Obj) (obj : Obj)
    (rest : List Obj) :
    processList hh c (obj :: rest) =
      ((processList hh (processListObj hh c obj).1 rest).1,
       (processListObj hh c obj).2 ++
         (processList hh (processListObj hh c obj).1 rest).2) := rfl

theorem processListObj_preserves (hh : Bool) (c : Cache Obj) (obj : Obj)
    (k : String) (hs : (mapLookup c.dataMap k).isSome) :
    (mapLookup ((processListObj hh c obj).1).dataMap k).isSome := by
  cases hk : c.keyFunc obj with
  | none =>
    rw [processListObj_error hh c obj hk]
    exact hs
  | some kx =>
    cases hl : mapLookup c.dataMap kx with
    | none =>
      rw [processListObj_notfound hh c obj kx hk hl]
      simp only [mapLookup_mapInsert]
      by_cases h : kx = k
      · simp [h]
      · simp [h, hs]
    | some old =>
      rw [processListObj_found hh c obj old kx hk hl]
      simp only [mapLookup_mapInsert]
      by_cases h : kx = k
      · simp [h]
      · simp [h, hs]

theorem processList_preserves (hh : Bool) (objs : List Obj) (c : Cache Obj)
    (k : String) (hs : (mapLookup c.dataMap k).isSome) :
    (mapLookup ((processList hh c objs).1).dataMap k).isSome := by
  induction objs generalizing c with
  | nil => exact hs
  | cons obj rest ih =>
    rw [processList_cons]
    exact ih _ (processListObj_preserves hh c obj k hs)

theorem processList_skip (hh : Bool) (pre : List Obj) (obj : Obj)
    (post : List Obj) (c : Cache Obj) (hbad : c.keyFunc obj = none) :
    processList hh c (pre ++ obj :: post) = processList hh c (pre ++ post) := by
  induction pre generalizing c with
  | nil =>
    simp only [List.nil_append]
    rw [processList_cons, processListObj_error hh c obj hbad]
    simp
  | cons p rest ih =>
    simp only [List.cons_append]
    rw [processList_cons, processList_cons]
    rw [ih (processListObj hh c p).1
        (by rw [processListObj_keyFunc]; exact hbad)]

/- ------------------------------------------------------------------ -/
/- Claims about the Cache store.                                       -/
/- ------------------------------------------------------------------ -/

/-- Claim C5: for every list of items whose key derivations all succeed
and every prior store state, Reset(items) succeeds, and a subsequent
ListKeys() is exactly the key set of items — duplicate-free, and a key is
listed iff it is derived from some item, so every prior entry whose key
is not among the items' keys is gone. -/
theorem C5_reset_exact_keyset {α : Type} (c : Cache α) (items : List α)
    (hall : ∀ x ∈ items, (c.keyFunc x).isSome) :
    (Cache.Reset c items).2 = none ∧
    ((Cache.Reset c items).1.ListKeys).Nodup ∧
    ∀ k, k ∈ (Cache.Reset c items).1.ListKeys ↔
      ∃ x ∈ items, c.keyFunc x = some k := by
  unfold Cache.Reset
  refine ⟨insertAll_err_none items _ hall,
          insertAll_nodupKeys items _ (by simp), ?_⟩
  intro k
  unfold Cache.ListKeys
  rw [← mapLookup_isSome_iff_mem_keys]
  rw [insertAll_lookup_isSome items { c with dataMap := [] } k hall]
  simp [mapLookup]

theorem C5_reset_exact_keyset_witness :
    (Cache.Reset cacheX [objY]).2 = none ∧
    ((Cache.Reset cacheX [objY]).1.ListKeys).Nodup ∧
    "y" ∈ (Cache.Reset cacheX [objY]).1.ListKeys ∧
    "x" ∉ (Cache.Reset cacheX [objY]).1.ListKeys := by
  have h := C5_reset_exact_keyset cacheX [objY] (by decide)
  refine ⟨h.1, h.2.1, (h.2.2 "y").mpr ⟨objY, by simp, by decide⟩, ?_⟩
  intro hx
  rcases (h.2.2 "x").mp hx with ⟨z, hz, hkz⟩
  simp only [List.mem_singleton] at hz
  subst hz
  simp [cacheX, nameKeyFunc, objY] at hkz

/-- Claim C6: for every list of items whose key derivations all succeed,
Replace(items) succeeds and upserts every item into the existing map:
afterwards the value stored under any key k equals the LAST item of the
list that derives k (later items overwrite earlier ones and overwrite any
prior entry under that key), while every prior entry whose key does not
occur among the keys of the items is still present with its old value —
the store holds the prior contents overwritten-by/extended-with the
items. -/
theorem C6_replace_upsert_frame {α : Type} (c : Cache α) (items : List α)
    (hall : ∀ x ∈ items, (c.keyFunc x).isSome) :
    (Cache.Replace c items).2 = none ∧
    (∀ k, mapLookup ((Cache.Replace c items).1).dataMap k =
      match items.reverse.find? (fun x => c.keyFunc x == some k) with
      | some x => some x
      | none => mapLookup c.dataMap k) ∧
    (∀ k, (¬ ∃ x ∈ items, c.keyFunc x = some k) →
      mapLookup ((Cache.Replace c items).1).dataMap k = mapLookup c.dataMap k) := by
  unfold Cache.Replace
  refine ⟨insertAll_err_none items c hall,
          fun k => insertAll_lookup_last items c k hall, ?_⟩
  intro k hnk
  apply insertAll_lookup_frame
  intro x hx he
  exact hnk ⟨x, hx, he⟩

theorem C6_replace_upsert_frame_witness :
    (Cache.Replace cacheXY [objX2]).2 = none ∧
    mapLookup ((Cache.Replace cacheXY [objX2]).1).dataMap "x" = some objX2 ∧
    mapLookup ((Cache.Replace cacheXY [objX2]).1).dataMap "y" = some objY := by
  have h := C6_replace_upsert_frame cacheXY [objX2] (by decide)
  refine ⟨h.1, ?_, ?_⟩
  · rw [h.2.1 "x"]
    decide
  · rw [h.2.1 "y"]
    decide

/-- Claim C7: when key derivation succeeds, Delete on a present key
succeeds (returns nil) and removes the entry so a subsequent Get reports
found=false; Delete on an absent key fails with DataNoExist and leaves the
store unchanged. -/
theorem C7_delete_present_absent {α : Type} (c : Cache α) (o : α) (k : String)
    (hk : c.keyFunc o = some k) :
    (∀ v, mapLookup c.dataMap k = some v →
      (Cache.Delete c o).2 = none ∧
      Cache.Get ((Cache.Delete c o).1) o = Except.ok none) ∧
    (mapLookup c.dataMap k = none →
      Cache.Delete c o = (c, some (StoreErr.DataNoExist o))) := by
  constructor
  · intro v hl
    rw [cacheDelete_eq_found c o k v hk hl]
    refine ⟨rfl, ?_⟩
    show Cache.Get { c with dataMap := mapErase c.dataMap k } o = Except.ok none
    rw [cacheGet_eq_ok { c with dataMap := mapErase c.dataMap k } o k hk]
    show Except.ok (mapLookup (mapErase c.dataMap k) k) = Except.ok none
    rw [mapLookup_mapErase]
    simp
  · intro hl
    exact cacheDelete_eq_missing c o k hk hl

theorem C7_delete_present_absent_witness :
    ((Cache.Delete cacheX objX2).2 = none ∧
     Cache.Get ((Cache.Delete cacheX objX2).1) objX2 = Except.ok none) ∧
    Cache.Delete cacheX objY = (cacheX, some (StoreErr.DataNoExist objY)) :=
  ⟨(C7_delete_present_absent cacheX objX2 "x" (by decide)).1 objX (by decide),
   (C7_delete_present_absent cacheX objY "y" (by decide)).2 (by decide)⟩

/-- Claim C8: for every store state and object whose key derivation
succeeds, Add(o) then Get(o) returns (o, true) with no error. -/
theorem C8_add_then_get {α : Type} (c : Cache α) (o : α) (k : String)
    (hk : c.keyFunc o = some k) :
    (Cache.Add c o).2 = none ∧
    Cache.Get ((Cache.Add c o).1) o = Except.ok (some o) := by
  rw [cacheAdd_eq c o k hk]
  refine ⟨rfl, ?_⟩
  show Cache.Get { c with dataMap := mapInsert c.dataMap k o } o = Except.ok (some o)
  rw [cacheGet_eq_ok { c with dataMap := mapInsert c.dataMap k o } o k hk]
  show Except.ok (mapLookup (mapInsert c.dataMap k o) k) = Except.ok (some o)
  rw [mapLookup_mapInsert]
  simp

theorem C8_add_then_get_witness :
    (Cache.Add cacheX objY).2 = none ∧
    Cache.Get ((Cache.Add cacheX objY).1) objY = Except.ok (some objY) :=
  C8_add_then_get cacheX objY "y" (by decide)

/-- Claim C9: Replace and Reset are not atomic on key-derivation failure:
with the key function succeeding on a prefix and failing on the next item,
both return KeyError for that item with the prefix already inserted and
the remaining items unprocessed; Reset has additionally already discarded
the prior contents, so it is left holding exactly the keys of the
prefix. -/
theorem C9_partial_mutation_on_failure {α : Type} (c : Cache α)
    (pre : List α) (bad : α) (post : List α)
    (hpre : ∀ x ∈ pre, (c.keyFunc x).isSome) (hbad : c.keyFunc bad = none) :
    Cache.Replace c (pre ++ bad :: post) =
      ((Cache.Replace c pre).1, some (StoreErr.KeyError bad)) ∧
    Cache.Reset c (pre ++ bad :: post) =
      ((Cache.Reset c pre).1, some (StoreErr.KeyError bad)) ∧
    (∀ k, (mapLookup ((Cache.Reset c (pre ++ bad :: post)).1).dataMap k).isSome
      ↔ ∃ x ∈ pre, c.keyFunc x = some k) := by
  have hres := insertAll_append_fail pre { c with dataMap := [] } bad post hpre hbad
  refine ⟨insertAll_append_fail pre c bad post hpre hbad, ?_, ?_⟩
  · unfold Cache.Reset
    exact hres
  · intro k
    unfold Cache.Reset
    simp only [hres]
    rw [insertAll_lookup_isSome pre { c with dataMap := [] } k hpre]
    simp [mapLookup]

theorem C9_partial_mutation_on_failure_witness :
    Cache.Replace fragileCacheX [objY, objBad, objX2] =
      ((Cache.Replace fragileCacheX [objY]).1, some (StoreErr.KeyError objBad)) ∧
    Cache.Reset fragileCacheX [objY, objBad, objX2] =
      ((Cache.Reset fragileCacheX [objY]).1, some (StoreErr.KeyError objBad)) ∧
    (mapLookup ((Cache.Reset fragileCacheX [objY, objBad, objX2]).1).dataMap "y").isSome ∧
    ¬ (mapLookup ((Cache.Reset fragileCacheX [objY, objBad, objX2]).1).dataMap "x").isSome := by
  have h := C9_partial_mutation_on_failure fragileCacheX [objY] objBad [objX2]
    (by decide) (by decide)
  refine ⟨h.1, h.2.1, (h.2.2 "y").mpr ⟨objY, by simp, by decide⟩, ?_⟩
  intro hx
  rcases (h.2.2 "x").mp hx with ⟨z, hz, hkz⟩
  simp only [List.mem_singleton] at hz
  subst hz
  simp [fragileCacheX, fragileKeyFunc, objY] at hkz

/- ------------------------------------------------------------------ -/
/- Claims about the Reflector.                                         -/
/- ------------------------------------------------------------------ -/

/-- Claim C1: every object the reconciler processes — an element of a
successful backend list in the full-sync pass (`processListObj`, the loop
body of `listAllData`) or the payload of an Added/Updated/Synced watch
event (`processAddUpdate`, reached through the event dispatch) — is
classified against the store: if Get finds an entry under the object's
key, the object is upserted (Update) and OnUpdate(oldValue, newObject)
fires; if the key is absent, it is inserted (Add) and OnAdd(newObject)
fires; when the handler is nil (`hh = false`) no callback is attempted. -/
theorem C1_reconciler_classification (hh : Bool) (c : Cache Obj) (e : Event)
    (k : String) (hk : c.keyFunc e.data = some k) :
    ((e.type = EventType.Added ∨ e.type = EventType.Updated ∨
        e.type = EventType.Synced) →
      handleEvent hh c e = processAddUpdate hh c e) ∧
    (∀ oldObj, mapLookup c.dataMap k = some oldObj →
      processAddUpdate hh c e =
        ({ c with dataMap := mapInsert c.dataMap k e.data },
         if hh then [CallbackEvent.OnUpdate oldObj e.data] else []) ∧
      processListObj hh c e.data =
        ({ c with dataMap := mapInsert c.dataMap k e.data },
         if hh then [CallbackEvent.OnUpdate oldObj e.data] else [])) ∧
    (mapLookup c.dataMap k = none →
      processAddUpdate hh c e =
        ({ c with dataMap := mapInsert c.dataMap k e.data },
         if hh then [CallbackEvent.OnAdd e.data] else []) ∧
      processListObj hh c e.data =
        ({ c with dataMap := mapInsert c.dataMap k e.data },
         if hh then [CallbackEvent.OnAdd e.data] else [])) := by
  refine ⟨?_, ?_, ?_⟩
  · rintro (ht | ht | ht) <;> simp [handleEvent, ht]
  · intro oldObj hl
    refine ⟨?_, processListObj_found hh c e.data oldObj k hk hl⟩
    unfold processAddUpdate
    rw [cacheGet_eq_ok c e.data k hk, hl, cacheUpdate_eq c e.data k hk]
  · intro hl
    refine ⟨?_, processListObj_notfound hh c e.data k hk hl⟩
    unfold processAddUpdate
    rw [cacheGet_eq_ok c e.data k hk, hl, cacheAdd_eq c e.data k hk]

theorem C1_reconciler_classification_witness :
    processAddUpdate true cacheX { type := EventType.Added, data := objX2 } =
      ({ cacheX with dataMap := mapInsert cacheX.dataMap "x" objX2 },
       [CallbackEvent.OnUpdate objX objX2]) ∧
    processAddUpdate false cacheX { type := EventType.Added, data := objX2 } =
      ({ cacheX with dataMap := mapInsert cacheX.dataMap "x" objX2 }, []) ∧
    processListObj true emptyCache objY =
      ({ emptyCache with dataMap := mapInsert emptyCache.dataMap "y" objY },
       [CallbackEvent.OnAdd objY]) :=
  ⟨((C1_reconciler_classification true cacheX
      { type := EventType.Added, data := objX2 } "x" (by decide)).2.1
      objX (by decide)).1,
   ((C1_reconciler_classification false cacheX
      { type := EventType.Added, data := objX2 } "x" (by decide)).2.1
      objX (by decide)).1,
   ((C1_reconciler_classification true emptyCache
      { type := EventType.Added, data := objY } "y" (by decide)).2.2
      (by decide)).2⟩

/-- Claim C2: for every Deleted watch event whose key is present in the
store, the entry is removed and OnDelete fires with the event payload —
unless the payload's annotations map is non-nil and maps
"bk-bcs-inner-storage" to "bkbcs-zookeeper", in which case OnDelete fires
with the previously cached store value; for a Deleted event whose key is
absent, the store is unchanged and no OnDelete fires.  Processing is
non-fatal either way: `processDeletion` returns normally (it has no error
path out of `handleWatch`), so the watch loop continues. -/
theorem C2_deletion_semantics (c : Cache Obj) (e : Event) (k : String)
    (hk : c.keyFunc e.data = some k) (ht : e.type = EventType.Deleted) :
    (∀ oldObj, mapLookup c.dataMap k = some oldObj →
      handleEvent true c e =
        ({ c with dataMap := mapErase c.dataMap k },
         [CallbackEvent.OnDelete
           (match e.data.annotations with
            | none => e.data
            | some am =>
              if mapLookup am "bk-bcs-inner-storage" = some "bkbcs-zookeeper"
              then oldObj else e.data)])) ∧
    (mapLookup c.dataMap k = none → handleEvent true c e = (c, [])) := by
  have hdisp : handleEvent true c e = processDeletion true c e := by
    simp [handleEvent, ht]
  constructor
  · intro oldObj hl
    rw [hdisp]
    unfold processDeletion
    rw [cacheGet_eq_ok c e.data k hk, hl,
        cacheDelete_eq_found c e.data k oldObj hk hl]
    cases han : e.data.annotations with
    | none =>
      have hzk : isZkInnerStorage e.data = false := by
        simp [isZkInnerStorage, han]
      simp [hzk]
    | some am =>
      by_cases hz : mapLookup am "bk-bcs-inner-storage" = some "bkbcs-zookeeper"
      · have hzk : isZkInnerStorage e.data = true := by
          simp [isZkInnerStorage, han, hz]
        simp [hzk, hz]
      · have hzk : isZkInnerStorage e.data = false := by
          simp only [isZkInnerStorage, han]
          cases hlk : mapLookup am "bk-bcs-inner-storage" with
          | none => decide
          | some s =>
            rw [hlk] at hz
            simp only [Option.getD_some, beq_eq_false_iff_ne, ne_eq]
            intro he
            exact hz (by rw [he])
        simp [hzk, hz]
  · intro hl
    rw [hdisp]
    unfold processDeletion
    rw [cacheGet_eq_ok c e.data k hk, hl]

theorem C2_deletion_semantics_witness :
    handleEvent true cacheX { type := EventType.Deleted, data := objXzk } =
      ({ cacheX with dataMap := mapErase cacheX.dataMap "x" },
       [CallbackEvent.OnDelete objX]) ∧
    handleEvent true cacheX { type := EventType.Deleted, data := objX2 } =
      ({ cacheX with dataMap := mapErase cacheX.dataMap "x" },
       [CallbackEvent.OnDelete objX2]) ∧
    handleEvent true cacheX { type := EventType.Deleted, data := objY } =
      (cacheX, []) := by
  refine ⟨?_, ?_, ?_⟩
  · have h := (C2_deletion_semantics cacheX
      { type := EventType.Deleted, data := objXzk } "x" (by decide) rfl).1
      objX (by decide)
    simpa using h
  · have h := (C2_deletion_semantics cacheX
      { type := EventType.Deleted, data := objX2 } "x" (by decide) rfl).1
      objX (by decide)
    simpa using h
  · exact (C2_deletion_semantics cacheX
      { type := EventType.Deleted, data := objY } "y" (by decide) rfl).2
      (by decide)

/-- Claim C3: a full synchronization pass never removes an entry: for
every prior store state and every backend list result (error or success),
every key present before `listAllData` is still present afterwards — only
the watch path deletes. -/
theorem C3_listAllData_never_removes (hh : Bool) (c : Cache Obj)
    (listResult : Option (List Obj)) (k : String)
    (hs : (mapLookup c.dataMap k).isSome) :
    (mapLookup ((listAllData hh c listResult).1).dataMap k).isSome := by
  cases listResult with
  | none => exact hs
  | some objs => exact processList_preserves hh objs c k hs

theorem C3_listAllData_never_removes_witness :
    (mapLookup ((listAllData true cacheX (some [objY, objX2])).1).dataMap "x").isSome :=
  C3_listAllData_never_removes true cacheX (some [objY, objX2]) "x" (by decide)

/-- Claim C4: when the backend List fails, `listAllData` returns with the
store unchanged and no callback fired (recovery waits for the next resync
tick); within a successful pass, a store Get failure for one object (for
this Cache, exactly a key-derivation failure) skips only that object: the
pass behaves as if that object were not in the list, the rest still being
processed. -/
theorem C4_list_failure_handling (hh : Bool) (c : Cache Obj) (obj : Obj)
    (pre post : List Obj) (hbad : c.keyFunc obj = none) :
    listAllData hh c none = (c, []) ∧
    Cache.Get c obj = Except.error (StoreErr.KeyError obj) ∧
    listAllData hh c (some (pre ++ obj :: post)) =
      listAllData hh c (some (pre ++ post)) := by
  refine ⟨rfl, cacheGet_eq_error c obj hbad, ?_⟩
  unfold listAllData
  exact processList_skip hh pre obj post c hbad

theorem C4_list_failure_handling_witness :
    listAllData true fragileCacheX none = (fragileCacheX, []) ∧
    listAllData true fragileCacheX (some [objY, objBad, objX2]) =
      listAllData true fragileCacheX (some [objY, objX2]) :=
  ⟨(C4_list_failure_handling true fragileCacheX objBad [objY] [objX2]
      (by decide)).1,
   (C4_list_failure_handling true fragileCacheX objBad [objY] [objX2]
      (by decide)).2.2⟩

/-- Claim C10: in the watch path a store-read failure is atomic: whenever
Cache.Get returns an error inside `processAddUpdate` or `processDeletion`,
the handler returns with the store unchanged and no callback fired; the
functions return normally, so the watch loop continues with later
events. -/
theorem C10_watch_get_failure_atomic (hh : Bool) (c : Cache Obj) (e : Event)
    (err : StoreErr Obj) (he : Cache.Get c e.data = Except.error err) :
    processAddUpdate hh c e = (c, []) ∧ processDeletion hh c e = (c, []) := by
  constructor
  · unfold processAddUpdate
    rw [he]
  · unfold processDeletion
    rw [he]

theorem C10_watch_get_failure_atomic_witness :
    processAddUpdate true fragileCacheX
      { type := EventType.Added, data := objBad } = (fragileCacheX, []) ∧
    processDeletion true fragileCacheX
      { type := EventType.Deleted, data := objBad } = (fragileCacheX, []) :=
  ⟨(C10_watch_get_failure_atomic true fragileCacheX
      { type := EventType.Added, data := objBad }
      (StoreErr.KeyError objBad)
      (cacheGet_eq_error fragileCacheX objBad (by decide))).1,
   (C10_watch_get_failure_atomic true fragileCacheX
      { type := EventType.Deleted, data := objBad }
      (StoreErr.KeyError objBad)
      (cacheGet_eq_error fragileCacheX objBad (by decide))).2⟩

end BcsReflector
